import Mathlib

/-!
# Verification of LIBTwinSVM (model selection, preprocessing, GUI shell)

A shallow embedding of the Python modules `libtsvm/model_selection.py`,
`libtsvm/preprocess.py` and `libtsvm/app.py`, with theorems checking the
natural-language specification against the code.

Conventions of the embedding:
* Python floats are modelled as rationals (`ℚ`); the numeric claims under
  check are exact, so no rounding model is needed.
* Label arrays are `List Int`; feature matrices are `List (List ℚ)`
  (row-major).
* A Python `try/except ZeroDivisionError` block is modelled structurally:
  each division is guarded by a zero test on its denominator, and a zero
  denominator aborts the remainder of the block (the already-assigned
  variables keep their values, the rest keep their initial `0`).
* Exceptions that propagate to the caller are modelled with `Except`
  or `Option`.
* External numeric-library operations that are not exactly representable
  (`np.std`, a random shuffle, `sklearn.train_test_split`) are taken as
  function parameters of the embedded operation, so theorems quantify
  over every possible behaviour of the library.
-/

namespace LIBTwinSVM

/-- The eleven-component result of `eval_metrics` in
`model_selection.py`: the four confusion-matrix counts and the seven
derived percentage scores, in the order of the Python return tuple. -/
structure Metrics where
  tp : ℕ
  tn : ℕ
  fp : ℕ
  fn : ℕ
  accuracy : ℚ
  recall_p : ℚ
  precision_p : ℚ
  f1_p : ℚ
  recall_n : ℚ
  precision_n : ℚ
  f1_n : ℚ
deriving DecidableEq

/-- The seven derived scores of `eval_metrics` before the final `* 100`.
The Python code computes them inside a single `try` block in this exact
order (accuracy, recall_p, precision_p, f1_p, recall_n, precision_n,
f1_n); a `ZeroDivisionError` aborts the block, so every variable from the
failing division onward keeps its initial value `0`.  Equivalently, score
number `k` holds its formula's value exactly when the denominators of
divisions `1..k` are all nonzero, and `0` otherwise; each component below
is guarded by that accumulated condition. -/
def tryScores (tp tn fp fn : ℕ) : ℚ × ℚ × ℚ × ℚ × ℚ × ℚ × ℚ :=
  let acc_raw : ℚ := ((tp : ℚ) + tn) / ((tp : ℚ) + fp + ((tn : ℚ) + fn))
  let rp_raw : ℚ := (tp : ℚ) / ((tp : ℚ) + fn)
  let pp_raw : ℚ := (tp : ℚ) / ((tp : ℚ) + fp)
  let f1p_raw : ℚ := (2 * rp_raw * pp_raw) / (pp_raw + rp_raw)
  let rn_raw : ℚ := (tn : ℚ) / ((tn : ℚ) + fp)
  let pn_raw : ℚ := (tn : ℚ) / ((tn : ℚ) + fn)
  let f1n_raw : ℚ := (2 * rn_raw * pn_raw) / (pn_raw + rn_raw)
  (if tp + fp + (tn + fn) ≠ 0 then acc_raw else 0,
   if tp + fp + (tn + fn) ≠ 0 ∧ tp + fn ≠ 0 then rp_raw else 0,
   if tp + fp + (tn + fn) ≠ 0 ∧ tp + fn ≠ 0 ∧ tp + fp ≠ 0 then pp_raw else 0,
   if tp + fp + (tn + fn) ≠ 0 ∧ tp + fn ≠ 0 ∧ tp + fp ≠ 0 ∧
       pp_raw + rp_raw ≠ 0 then f1p_raw else 0,
   if tp + fp + (tn + fn) ≠ 0 ∧ tp + fn ≠ 0 ∧ tp + fp ≠ 0 ∧
       pp_raw + rp_raw ≠ 0 ∧ tn + fp ≠ 0 then rn_raw else 0,
   if tp + fp + (tn + fn) ≠ 0 ∧ tp + fn ≠ 0 ∧ tp + fp ≠ 0 ∧
       pp_raw + rp_raw ≠ 0 ∧ tn + fp ≠ 0 ∧ tn + fn ≠ 0 then pn_raw else 0,
   if tp + fp + (tn + fn) ≠ 0 ∧ tp + fn ≠ 0 ∧ tp + fp ≠ 0 ∧
       pp_raw + rp_raw ≠ 0 ∧ tn + fp ≠ 0 ∧ tn + fn ≠ 0 ∧
       pn_raw + rn_raw ≠ 0 then f1n_raw else 0)

/-- Embedding of `eval_metrics(y_true, y_pred)` from
`model_selection.py`.  The loop scans the two parallel arrays and
classifies each position into exactly one of the four confusion buckets
(positions whose labels are not `±1` fall in no bucket); then the seven
scores are computed inside one guarded block and scaled by `100` in the
returned tuple.  The arrays are parallel, so the scan is over their zip. -/
def eval_metrics (y_true y_pred : List Int) : Metrics :=
  let pairs := y_true.zip y_pred
  let tp := pairs.countP (fun q => q.1 = 1 ∧ q.2 = 1)
  let tn := pairs.countP (fun q => q.1 = -1 ∧ q.2 = -1)
  let fp := pairs.countP (fun q => q.1 = -1 ∧ q.2 = 1)
  let fn := pairs.countP (fun q => q.1 = 1 ∧ q.2 = -1)
  let s := tryScores tp tn fp fn
  ⟨tp, tn, fp, fn, s.1 * 100, s.2.1 * 100, s.2.2.1 * 100, s.2.2.2.1 * 100,
    s.2.2.2.2.1 * 100, s.2.2.2.2.2.1 * 100, s.2.2.2.2.2.2 * 100⟩

/- ### Helper lemmas about the guarded score block -/

/-- When the total count is nonzero, the accuracy keeps its formula value
whatever happens to the later divisions. -/
theorem tryScores_acc (tp tn fp fn : ℕ) (h0 : tp + fp + (tn + fn) ≠ 0) :
    (tryScores tp tn fp fn).1 =
      ((tp : ℚ) + tn) / ((tp : ℚ) + fp + ((tn : ℚ) + fn)) := by
  simp only [tryScores, if_pos h0]

/-- When the denominator of `recall_p` is zero, the `ZeroDivisionError`
raised at the second division leaves all six class scores at `0`. -/
theorem tryScores_pos_zero (tp tn fp fn : ℕ) (h1 : tp + fn = 0) :
    (tryScores tp tn fp fn).2 = (0, 0, 0, 0, 0, 0) := by
  simp only [tryScores]
  norm_num [h1]

/-- When every denominator of the block is nonzero, no division fails and
every score holds its formula value. -/
theorem tryScores_all_nonzero (tp tn fp fn : ℕ)
    (h0 : tp + fp + (tn + fn) ≠ 0)
    (h1 : tp + fn ≠ 0) (h2 : tp + fp ≠ 0)
    (h3 : (tp : ℚ) / ((tp : ℚ) + fp) + (tp : ℚ) / ((tp : ℚ) + fn) ≠ 0)
    (h4 : tn + fp ≠ 0) (h5 : tn + fn ≠ 0)
    (h6 : (tn : ℚ) / ((tn : ℚ) + fn) + (tn : ℚ) / ((tn : ℚ) + fp) ≠ 0) :
    tryScores tp tn fp fn =
      (((tp : ℚ) + tn) / ((tp : ℚ) + fp + ((tn : ℚ) + fn)),
       (tp : ℚ) / ((tp : ℚ) + fn),
       (tp : ℚ) / ((tp : ℚ) + fp),
       (2 * ((tp : ℚ) / ((tp : ℚ) + fn)) * ((tp : ℚ) / ((tp : ℚ) + fp))) /
         ((tp : ℚ) / ((tp : ℚ) + fp) + (tp : ℚ) / ((tp : ℚ) + fn)),
       (tn : ℚ) / ((tn : ℚ) + fp),
       (tn : ℚ) / ((tn : ℚ) + fn),
       (2 * ((tn : ℚ) / ((tn : ℚ) + fp)) * ((tn : ℚ) / ((tn : ℚ) + fn))) /
         ((tn : ℚ) / ((tn : ℚ) + fn) + (tn : ℚ) / ((tn : ℚ) + fp))) := by
  simp only [tryScores]
  rw [if_pos h0, if_pos (And.intro h0 h1),
    if_pos (And.intro h0 (And.intro h1 h2)),
    if_pos (And.intro h0 (And.intro h1 (And.intro h2 h3))),
    if_pos (And.intro h0 (And.intro h1 (And.intro h2 (And.intro h3 h4)))),
    if_pos (And.intro h0 (And.intro h1 (And.intro h2 (And.intro h3
      (And.intro h4 h5))))),
    if_pos (And.intro h0 (And.intro h1 (And.intro h2 (And.intro h3
      (And.intro h4 (And.intro h5 h6))))))]

/- ### C1 -/

/-- C1, counterexample: on `y_true = y_pred = [-1]` the denominator of
`recall_n` (that is `tn + fp = 1`) is nonzero, yet `eval_metrics` returns
`recall_n = 0` instead of the normal value `tn/(tn+fp) * 100 = 100`: the
zero denominator of `recall_p` (`tp + fn = 0`) aborts the whole block, so
the scores are not computed independently as the claim states. -/
theorem c1_counterexample :
    (eval_metrics [-1] [-1]).tn + (eval_metrics [-1] [-1]).fp ≠ 0 ∧
    (eval_metrics [-1] [-1]).recall_n = 0 ∧
    (eval_metrics [-1] [-1]).recall_n ≠
      ((eval_metrics [-1] [-1]).tn : ℚ) /
        (((eval_metrics [-1] [-1]).tn : ℚ) + ((eval_metrics [-1] [-1]).fp : ℚ)) * 100 := by
  norm_num [eval_metrics, tryScores, List.countP, List.countP.go]

/-- C1 (amended): the seven scores of `eval_metrics` are computed
sequentially in one guarded block, in the order accuracy, recall_p,
precision_p, f1_p, recall_n, precision_n, f1_n, and no division-by-zero
error reaches the caller.  Each score equals its normal formula value
exactly when every denominator up to and including its own in that order
is nonzero, and is `0` otherwise: the first zero denominator, at
whichever of the seven positions, leaves that score and every later
score at `0`, while every earlier score keeps its normal value. -/
theorem c1_eval_metrics_guarded_cascade (y_true y_pred : List Int) (m : Metrics)
    (hm : m = eval_metrics y_true y_pred) :
    m.accuracy =
      (if m.tp + m.fp + (m.tn + m.fn) ≠ 0 then
        ((m.tp : ℚ) + m.tn) / ((m.tp : ℚ) + m.fp + ((m.tn : ℚ) + m.fn)) * 100
      else 0) ∧
    m.recall_p =
      (if m.tp + m.fp + (m.tn + m.fn) ≠ 0 ∧ m.tp + m.fn ≠ 0 then
        (m.tp : ℚ) / ((m.tp : ℚ) + m.fn) * 100
      else 0) ∧
    m.precision_p =
      (if m.tp + m.fp + (m.tn + m.fn) ≠ 0 ∧ m.tp + m.fn ≠ 0 ∧
          m.tp + m.fp ≠ 0 then
        (m.tp : ℚ) / ((m.tp : ℚ) + m.fp) * 100
      else 0) ∧
    m.f1_p =
      (if m.tp + m.fp + (m.tn + m.fn) ≠ 0 ∧ m.tp + m.fn ≠ 0 ∧
          m.tp + m.fp ≠ 0 ∧
          (m.tp : ℚ) / ((m.tp : ℚ) + m.fp) + (m.tp : ℚ) / ((m.tp : ℚ) + m.fn) ≠ 0 then
        (2 * ((m.tp : ℚ) / ((m.tp : ℚ) + m.fn)) * ((m.tp : ℚ) / ((m.tp : ℚ) + m.fp))) /
          ((m.tp : ℚ) / ((m.tp : ℚ) + m.fp) + (m.tp : ℚ) / ((m.tp : ℚ) + m.fn)) * 100
      else 0) ∧
    m.recall_n =
      (if m.tp + m.fp + (m.tn + m.fn) ≠ 0 ∧ m.tp + m.fn ≠ 0 ∧
          m.tp + m.fp ≠ 0 ∧
          (m.tp : ℚ) / ((m.tp : ℚ) + m.fp) + (m.tp : ℚ) / ((m.tp : ℚ) + m.fn) ≠ 0 ∧
          m.tn + m.fp ≠ 0 then
        (m.tn : ℚ) / ((m.tn : ℚ) + m.fp) * 100
      else 0) ∧
    m.precision_n =
      (if m.tp + m.fp + (m.tn + m.fn) ≠ 0 ∧ m.tp + m.fn ≠ 0 ∧
          m.tp + m.fp ≠ 0 ∧
          (m.tp : ℚ) / ((m.tp : ℚ) + m.fp) + (m.tp : ℚ) / ((m.tp : ℚ) + m.fn) ≠ 0 ∧
          m.tn + m.fp ≠ 0 ∧ m.tn + m.fn ≠ 0 then
        (m.tn : ℚ) / ((m.tn : ℚ) + m.fn) * 100
      else 0) ∧
    m.f1_n =
      (if m.tp + m.fp + (m.tn + m.fn) ≠ 0 ∧ m.tp + m.fn ≠ 0 ∧
          m.tp + m.fp ≠ 0 ∧
          (m.tp : ℚ) / ((m.tp : ℚ) + m.fp) + (m.tp : ℚ) / ((m.tp : ℚ) + m.fn) ≠ 0 ∧
          m.tn + m.fp ≠ 0 ∧ m.tn + m.fn ≠ 0 ∧
          (m.tn : ℚ) / ((m.tn : ℚ) + m.fn) + (m.tn : ℚ) / ((m.tn : ℚ) + m.fp) ≠ 0 then
        (2 * ((m.tn : ℚ) / ((m.tn : ℚ) + m.fp)) * ((m.tn : ℚ) / ((m.tn : ℚ) + m.fn))) /
          ((m.tn : ℚ) / ((m.tn : ℚ) + m.fn) + (m.tn : ℚ) / ((m.tn : ℚ) + m.fp)) * 100
      else 0) := by
  subst hm
  simp only [eval_metrics, tryScores, ite_mul, zero_mul]
  exact ⟨trivial, trivial, trivial, trivial, trivial, trivial, trivial⟩

/-- C1 witness: the amended theorem applied at `y_true = [1, 1]`,
`y_pred = [1, -1]`, where the first zero denominator sits at `recall_n`
(`tn + fp = 0`): the three positive-class scores computed before it keep
their normal values `50`, `100` and `200/3`, and the three
negative-class scores from that position on are `0`. -/
theorem c1_witness :
    (eval_metrics [1, 1] [1, -1]).recall_p = 50 ∧
    (eval_metrics [1, 1] [1, -1]).precision_p = 100 ∧
    (eval_metrics [1, 1] [1, -1]).f1_p = 200 / 3 ∧
    (eval_metrics [1, 1] [1, -1]).recall_n = 0 ∧
    (eval_metrics [1, 1] [1, -1]).precision_n = 0 ∧
    (eval_metrics [1, 1] [1, -1]).f1_n = 0 := by
  have h := c1_eval_metrics_guarded_cascade [1, 1] [1, -1]
    (eval_metrics [1, 1] [1, -1]) rfl
  refine ⟨?_, ?_, ?_, ?_, ?_, ?_⟩
  · rw [h.2.1]
    norm_num [eval_metrics, tryScores, List.countP, List.countP.go]
  · rw [h.2.2.1]
    norm_num [eval_metrics, tryScores, List.countP, List.countP.go]
  · rw [h.2.2.2.1]
    norm_num [eval_metrics, tryScores, List.countP, List.countP.go]
  · rw [h.2.2.2.2.1]
    norm_num [eval_metrics, tryScores, List.countP, List.countP.go]
  · rw [h.2.2.2.2.2.1]
    norm_num [eval_metrics, tryScores, List.countP, List.countP.go]
  · rw [h.2.2.2.2.2.2]
    norm_num [eval_metrics, tryScores, List.countP, List.countP.go]

/- ### Hyper-parameter search space (`search_space`) -/

/-- One hyper-parameter point of the grid: the dictionary with keys
`C1`, `C2`, `gamma` produced by `ParameterGrid` in `search_space`. -/
structure ParamPoint where
  C1 : ℚ
  C2 : ℚ
  gamma : ℚ
deriving DecidableEq

/-- `n` equally spaced integers starting at `lo` with spacing `step`
(helper for the `np.arange` model). -/
def arange (lo step : Int) : ℕ → List Int
  | 0 => []
  | n + 1 => lo :: arange (lo + step) step n

theorem mem_arange (step : Int) :
    ∀ (n : ℕ) (lo x : Int),
      x ∈ arange lo step n ↔ ∃ k : ℕ, k < n ∧ x = lo + k * step := by
  intro n
  induction n with
  | zero => intro lo x; simp [arange]
  | succ m ih =>
    intro lo x
    simp only [arange, List.mem_cons, ih]
    constructor
    · rintro (rfl | ⟨k, hk, rfl⟩)
      · exact ⟨0, by omega, by ring⟩
      · exact ⟨k + 1, by omega, by push_cast; ring⟩
    · rintro ⟨k, hk, rfl⟩
      rcases Nat.eq_zero_or_pos k with rfl | hkpos
      · left; simp
      · right
        refine ⟨k - 1, by omega, ?_⟩
        have : (k : Int) = (k - 1 : ℕ) + 1 := by omega
        rw [this]; ring

/-- Model of `np.arange(lo, hi + 1, step)` for integer bounds and a
positive integer step, as used by `search_space`: the values
`lo, lo + step, ...` strictly below `hi + 1` (empty for a non-positive
step, where `arange` would yield nothing or raise). -/
def expRange (lo hi step : Int) : List Int :=
  if 0 < step then arange lo step ((hi + 1 - lo + step - 1) / step).toNat else []

theorem mem_expRange_one (lo hi x : Int) :
    x ∈ expRange lo hi 1 ↔ lo ≤ x ∧ x ≤ hi := by
  unfold expRange
  rw [if_pos (by norm_num : (0:Int) < 1)]
  have hc : ((hi + 1 - lo + 1 - 1) / 1).toNat = (hi + 1 - lo).toNat := by simp
  rw [hc, mem_arange 1]
  constructor
  · rintro ⟨k, hk, rfl⟩
    omega
  · rintro ⟨h1, h2⟩
    exact ⟨(x - lo).toNat, by omega, by omega⟩

/-- Embedding of `search_space(kernel_type, search_type, C1_range,
C2_range, u_range, step=1)` from `model_selection.py`.  The three
candidate lists are powers of two over `arange` exponent ranges, with the
gamma list replaced by `[1]` for a non-RBF kernel.  `ParameterGrid`
iterates the product of the sorted keys `C1 < C2 < gamma` with the last
key varying fastest.  For a search type other than `"full"` the Python
function raises (`param_grid` is never assigned), modelled as `none`. -/
def search_space (kernel_type search_type : String)
    (C1_range C2_range u_range : Int × Int) (step : Int := 1) :
    Option (List ParamPoint) :=
  let c1_range := (expRange C1_range.1 C1_range.2 step).map (fun i => (2 : ℚ) ^ i)
  let c2_range := (expRange C2_range.1 C2_range.2 step).map (fun i => (2 : ℚ) ^ i)
  let gamma_range := if kernel_type = "RBF" then
      (expRange u_range.1 u_range.2 step).map (fun i => (2 : ℚ) ^ i)
    else [1]
  if search_type = "full" then
    some (c1_range.flatMap (fun a => c2_range.flatMap (fun b =>
      gamma_range.map (fun g => ⟨a, b, g⟩))))
  else none

/- ### C4 -/

/-- C4: for search type "full", `search_space` returns exactly the
Cartesian product of the three power-of-two candidate sequences (gamma
replaced by `{1}` for a non-RBF kernel): a point is in the returned grid
iff each coordinate is a power `2^e` with the exponent in the
corresponding inclusive range; and the two concrete instances of the
claim hold, with exactly 6 points (gamma `= 1`, `C1 ∈ {1,2,4}`,
`C2 ∈ {1,2}`) and exactly 8 points (gamma `∈ {1,2}`) respectively. -/
theorem c4_search_space_cartesian :
    (∀ (kt : String) (c1r c2r ur : Int × Int) (l : List ParamPoint),
      search_space kt "full" c1r c2r ur = some l →
      ∀ p : ParamPoint,
        p ∈ l ↔
          ((∃ i : Int, c1r.1 ≤ i ∧ i ≤ c1r.2 ∧ p.C1 = (2:ℚ)^i) ∧
           (∃ j : Int, c2r.1 ≤ j ∧ j ≤ c2r.2 ∧ p.C2 = (2:ℚ)^j) ∧
           (kt = "RBF" → ∃ g : Int, ur.1 ≤ g ∧ g ≤ ur.2 ∧ p.gamma = (2:ℚ)^g) ∧
           (kt ≠ "RBF" → p.gamma = 1))) ∧
    search_space "linear" "full" (0, 2) (0, 1) (0, 5) =
      some [⟨1, 1, 1⟩, ⟨1, 2, 1⟩, ⟨2, 1, 1⟩, ⟨2, 2, 1⟩, ⟨4, 1, 1⟩, ⟨4, 2, 1⟩] ∧
    search_space "RBF" "full" (0, 1) (0, 1) (0, 1) =
      some [⟨1, 1, 1⟩, ⟨1, 1, 2⟩, ⟨1, 2, 1⟩, ⟨1, 2, 2⟩,
            ⟨2, 1, 1⟩, ⟨2, 1, 2⟩, ⟨2, 2, 1⟩, ⟨2, 2, 2⟩] := by
  refine ⟨?_, ?_, ?_⟩
  · intro kt c1r c2r ur l hl p
    rw [search_space, if_pos rfl, Option.some_inj] at hl
    subst hl
    by_cases hkt : kt = "RBF"
    · subst hkt
      rw [if_pos rfl]
      simp only [List.mem_flatMap, List.mem_map]
      constructor
      · rintro ⟨a, ⟨i, hi, rfl⟩, b, ⟨j, hj, rfl⟩, g, ⟨k, hk, rfl⟩, rfl⟩
        rw [mem_expRange_one] at hi hj hk
        exact ⟨⟨i, hi.1, hi.2, rfl⟩, ⟨j, hj.1, hj.2, rfl⟩,
          fun _ => ⟨k, hk.1, hk.2, rfl⟩, fun hne => absurd rfl hne⟩
      · rintro ⟨⟨i, hi1, hi2, hC1⟩, ⟨j, hj1, hj2, hC2⟩, hrbf, _⟩
        obtain ⟨k, hk1, hk2, hg⟩ := hrbf trivial
        cases p
        dsimp at hC1 hC2 hg
        subst hC1; subst hC2; subst hg
        exact ⟨_, ⟨i, (mem_expRange_one _ _ _).2 ⟨hi1, hi2⟩, rfl⟩,
               _, ⟨j, (mem_expRange_one _ _ _).2 ⟨hj1, hj2⟩, rfl⟩,
               _, ⟨k, (mem_expRange_one _ _ _).2 ⟨hk1, hk2⟩, rfl⟩, rfl⟩
    · rw [if_neg hkt]
      simp only [List.mem_flatMap, List.mem_map, List.mem_singleton]
      constructor
      · rintro ⟨a, ⟨i, hi, rfl⟩, b, ⟨j, hj, rfl⟩, g, rfl, rfl⟩
        rw [mem_expRange_one] at hi hj
        exact ⟨⟨i, hi.1, hi.2, rfl⟩, ⟨j, hj.1, hj.2, rfl⟩,
          fun h => absurd h hkt, fun _ => rfl⟩
      · rintro ⟨⟨i, hi1, hi2, hC1⟩, ⟨j, hj1, hj2, hC2⟩, _, hg⟩
        have hg1 := hg hkt
        cases p
        dsimp at hC1 hC2 hg1
        subst hC1; subst hC2; subst hg1
        exact ⟨_, ⟨i, (mem_expRange_one _ _ _).2 ⟨hi1, hi2⟩, rfl⟩,
               _, ⟨j, (mem_expRange_one _ _ _).2 ⟨hj1, hj2⟩, rfl⟩,
               1, rfl, rfl⟩
  · have h1 : expRange 0 2 1 = [0, 1, 2] := by rfl
    have h2 : expRange 0 1 1 = [0, 1] := by rfl
    simp [search_space, h1, h2, ParamPoint.mk.injEq]
    norm_num
  · have h2 : expRange 0 1 1 = [0, 1] := by rfl
    simp [search_space, h2, ParamPoint.mk.injEq]

/-- C4 witness: the membership characterization applied at the concrete
linear-kernel instance, showing the point `(C1, C2, gamma) = (4, 2, 1)`
lies in the produced grid. -/
theorem c4_witness :
    (⟨4, 2, 1⟩ : ParamPoint) ∈
      [(⟨1, 1, 1⟩ : ParamPoint), ⟨1, 2, 1⟩, ⟨2, 1, 1⟩, ⟨2, 2, 1⟩,
       ⟨4, 1, 1⟩, ⟨4, 2, 1⟩] := by
  have h := c4_search_space_cartesian
  exact (h.1 "linear" (0, 2) (0, 1) (0, 5) _ h.2.1 ⟨4, 2, 1⟩).2
    ⟨⟨2, by norm_num, by norm_num, by norm_num⟩,
     ⟨1, by norm_num, by norm_num, by norm_num⟩,
     fun hr => absurd hr (by decide), fun _ => rfl⟩

/- ### Validator: strategy selection and the train/test split method -/

/-- The three bound evaluation methods a `Validator` can hand back from
`choose_validator`. -/
inductive ValidatorMethod where
  | cv_validator
  | tt_validator
  | cv_validator_mc
deriving DecidableEq

/-- The estimator object built by `initialize`: a TSVM or LSTSVM (both
external estimator classes, kept abstract as tagged constructors),
possibly wrapped in a one-vs-all or one-vs-one multiclass wrapper;
`none_obj` models Python leaving `clf_obj = None` for an unrecognized
family tag. -/
inductive ClfObj where
  | none_obj
  | tsvm (kernel_type : String) (rect_kernel : ℚ)
  | lstsvm (kernel_type : String) (rect_kernel : ℚ)
  | ova (inner : ClfObj)
  | ovo (inner : ClfObj)
deriving DecidableEq

/-- The state of a `Validator` instance (`model_selection.py`):
training data, labels, problem type, the `(method name, parameter)`
evaluation configuration, and the estimator object. -/
structure Validator where
  train_data : List (List ℚ)
  labels_data : List Int
  problem_type : String
  validator : String × ℚ
  estimator : ClfObj
deriving DecidableEq

/-- Embedding of `Validator.choose_validator`: dispatch on the problem
type and the evaluation-method name; every combination not matched by the
nested `if` chain falls off the end of the Python method and yields
`None`. -/
def Validator.choose_validator (v : Validator) : Option ValidatorMethod :=
  if v.problem_type = "binary" then
    if v.validator.1 = "CV" then some .cv_validator
    else if v.validator.1 = "t_t_split" then some .tt_validator
    else none
  else if v.problem_type = "multiclass" then
    if v.validator.1 = "CV" then some .cv_validator_mc
    else none
  else none

/- ### C6 -/

/-- C6: `choose_validator` returns the binary cross-validation method
for `("binary", "CV")`, the train/test binary method for
`("binary", "t_t_split")`, the multiclass cross-validation method for
`("multiclass", "CV")`, and `none` for every other combination of
problem type and method name. -/
theorem c6_choose_validator_dispatch :
    ∀ (X : List (List ℚ)) (y : List Int) (prm : ℚ) (est : ClfObj)
      (pt vt : String),
      (pt = "binary" → vt = "CV" →
        (Validator.mk X y pt (vt, prm) est).choose_validator =
          some ValidatorMethod.cv_validator) ∧
      (pt = "binary" → vt = "t_t_split" →
        (Validator.mk X y pt (vt, prm) est).choose_validator =
          some ValidatorMethod.tt_validator) ∧
      (pt = "multiclass" → vt = "CV" →
        (Validator.mk X y pt (vt, prm) est).choose_validator =
          some ValidatorMethod.cv_validator_mc) ∧
      (¬(pt = "binary" ∧ vt = "CV") → ¬(pt = "binary" ∧ vt = "t_t_split") →
        ¬(pt = "multiclass" ∧ vt = "CV") →
        (Validator.mk X y pt (vt, prm) est).choose_validator = none) := by
  intro X y prm est pt vt
  refine ⟨?_, ?_, ?_, ?_⟩
  · rintro rfl rfl
    rfl
  · rintro rfl rfl
    rfl
  · rintro rfl rfl
    rfl
  · intro h1 h2 h3
    unfold Validator.choose_validator
    split_ifs with hb hcv hts hm hcv2
    · exact absurd ⟨hb, hcv⟩ h1
    · exact absurd ⟨hb, hts⟩ h2
    · rfl
    · exact absurd ⟨hm, hcv2⟩ h3
    · rfl
    · rfl

/-- C6 witness: the unhandled combination `("multiclass", "t_t_split")`
yields no strategy, and `("binary", "CV")` yields the binary
cross-validation method. -/
theorem c6_witness :
    (Validator.mk [] [] "multiclass" ("t_t_split", 3/10)
      ClfObj.none_obj).choose_validator = none ∧
    (Validator.mk [] [] "binary" ("CV", 5)
      ClfObj.none_obj).choose_validator = some ValidatorMethod.cv_validator := by
  constructor
  · exact (c6_choose_validator_dispatch [] [] (3/10) ClfObj.none_obj
      "multiclass" "t_t_split").2.2.2 (by simp) (by simp) (by simp)
  · exact (c6_choose_validator_dispatch [] [] 5 ClfObj.none_obj
      "binary" "CV").1 rfl rfl

/- ### `tt_validator` (C7) -/

/-- A train/test split as produced by the external
`sklearn.train_test_split`; the library call is a parameter of the
embedded method, invoked with the configured test fraction and
`random_state = 42`. -/
structure TTSplit where
  X_train : List (List ℚ)
  X_test : List (List ℚ)
  y_train : List Int
  y_test : List Int

/-- The external estimator contract: `set_params` followed by `fit` on
the training part and `predict` on the test part, combined into one
function from the parameter point and the data to the predicted
labels. -/
def Estimator : Type :=
  ParamPoint → List (List ℚ) → List Int → List (List ℚ) → List Int

/-- The mapping returned by `tt_validator`: the metric bundle of
`eval_metrics` merged with the tested hyper-parameter point. -/
structure TTBundle where
  metrics : Metrics
  params : ParamPoint
deriving DecidableEq

/-- Embedding of `Validator.tt_validator(dict_param)`: configure the
estimator with the point, split the data once by calling the external
split with the configured test fraction (`self.validator[1]`) and the
literal seed `42`, fit and predict, evaluate with `eval_metrics`, and
return the accuracy, the literal `0.0` standard deviation, and the
metric bundle merged with the point. -/
def tt_validator (split : ℚ → ℕ → TTSplit) (estimator : Estimator)
    (test_size : ℚ) (dict_param : ParamPoint) : ℚ × ℚ × TTBundle :=
  let s := split test_size 42
  let out := estimator dict_param s.X_train s.y_train s.X_test
  let m := eval_metrics s.y_test out
  (m.accuracy, 0, ⟨m, dict_param⟩)

/- ### C7 -/

/-- C7: for every dataset-split behaviour, estimator, test fraction and
hyper-parameter point, `tt_validator` returns exactly `0.0` as its
second (standard deviation) component; and its whole result depends on
the external split function only through the single call at the
configured test fraction and the fixed seed `42` (the data is split
once, with that fraction and seed). -/
theorem c7_tt_validator_std_zero :
    ∀ (split : ℚ → ℕ → TTSplit) (estimator : Estimator)
      (test_size : ℚ) (p : ParamPoint),
      (tt_validator split estimator test_size p).2.1 = 0 ∧
      (∀ split2 : ℚ → ℕ → TTSplit,
        split test_size 42 = split2 test_size 42 →
        tt_validator split estimator test_size p =
          tt_validator split2 estimator test_size p) := by
  intro split estimator ts p
  refine ⟨rfl, fun split2 h => ?_⟩
  unfold tt_validator
  rw [h]

/-- C7 witness: the theorem applied at a concrete split function,
estimator, test fraction `3/10` and point `(1, 1, 1)`. -/
theorem c7_witness :
    (tt_validator (fun _ _ => ⟨[], [], [], []⟩) (fun _ _ _ _ => [])
      (3/10) ⟨1, 1, 1⟩).2.1 = 0 ∧
    tt_validator (fun _ _ => ⟨[], [], [], []⟩) (fun _ _ _ _ => [])
      (3/10) ⟨1, 1, 1⟩ =
      tt_validator (fun _ _ => ⟨[], [], [], []⟩) (fun _ _ _ _ => [])
        (3/10) ⟨1, 1, 1⟩ := by
  have h := c7_tt_validator_std_zero (fun _ _ => ⟨[], [], [], []⟩)
    (fun _ _ _ _ => []) (3/10) ⟨1, 1, 1⟩
  exact ⟨h.1, h.2 (fun _ _ => ⟨[], [], [], []⟩) rfl⟩

/- ### Threaded grid search (`ThreadGS.run_gs`, C5) -/

/-- Outcome of one call of the evaluation function `func_eval(element)`
inside the grid-search loop: a normal return (accuracy, accuracy
standard deviation, metric mapping of type `R`), a
`np.linalg.LinAlgError` raised during fitting, or an exception of any
other type. -/
inductive EvalRes (R : Type) where
  | ok (acc : ℚ) (acc_std : ℚ) (result : R)
  | linalg_error
  | other_error
deriving DecidableEq

/-- The loop state of `ThreadGS.run_gs`: the results list, the best
accuracy and its standard deviation, and the progress counter `run`. -/
structure GSState (R : Type) where
  result_list : List R
  max_acc : ℚ
  max_acc_std : ℚ
  run : ℕ
deriving DecidableEq

/-- One iteration of the grid-search loop: on a normal return append the
mapping, update the best accuracy when strictly exceeded, and advance the
counter; on a `LinAlgError` only advance the counter; on any other
exception propagate (abort the whole sweep, modelled as `none`). -/
def gs_step {R : Type} (st : GSState R) (e : EvalRes R) : Option (GSState R) :=
  match e with
  | .ok acc acc_std result =>
      some ⟨st.result_list ++ [result],
            if st.max_acc < acc then acc else st.max_acc,
            if st.max_acc < acc then acc_std else st.max_acc_std,
            st.run + 1⟩
  | .linalg_error => some ⟨st.result_list, st.max_acc, st.max_acc_std, st.run + 1⟩
  | .other_error => none

/-- Embedding of `ThreadGS.run_gs`: fold the loop body over the search
space, starting from an empty results list, best accuracy `0` (with
standard deviation `0`) and counter `1`; `none` models an exception
propagating out of the sweep. -/
def run_gs {P R : Type} (f : P → EvalRes R) (space : List P) :
    Option (GSState R) :=
  space.foldlM (fun st p => gs_step st (f p)) ⟨[], 0, 0, 1⟩

/-- The mapping appended for a point, when its evaluation succeeds. -/
def okResult {P R : Type} (f : P → EvalRes R) (p : P) : Option R :=
  match f p with
  | .ok _ _ r => some r
  | _ => none

/-- The accuracy of a point, when its evaluation succeeds. -/
def okAcc {P R : Type} (f : P → EvalRes R) (p : P) : Option ℚ :=
  match f p with
  | .ok acc _ _ => some acc
  | _ => none

theorem run_gs_go {P R : Type} (f : P → EvalRes R) :
    ∀ (space : List P) (st : GSState R),
      (∀ p ∈ space, f p ≠ EvalRes.other_error) →
      ∃ st', List.foldlM (fun s q => gs_step s (f q)) st space = some st' ∧
        st'.result_list = st.result_list ++ space.filterMap (okResult f) ∧
        st'.run = st.run + space.length ∧
        st'.max_acc = (space.filterMap (okAcc f)).foldl max st.max_acc := by
  intro space
  induction space with
  | nil =>
    intro st _
    exact ⟨st, rfl, by simp, by simp, by simp⟩
  | cons p rest ih =>
    intro st h
    have hp : f p ≠ EvalRes.other_error := h p (List.mem_cons_self p rest)
    have hrest : ∀ q ∈ rest, f q ≠ EvalRes.other_error :=
      fun q hq => h q (List.mem_cons_of_mem p hq)
    rw [List.foldlM_cons]
    cases hf : f p with
    | ok acc acc_std r =>
      obtain ⟨st', h1, h2, h3, h4⟩ := ih ⟨st.result_list ++ [r],
        if st.max_acc < acc then acc else st.max_acc,
        if st.max_acc < acc then acc_std else st.max_acc_std,
        st.run + 1⟩ hrest
      refine ⟨st', ?_, ?_, ?_, ?_⟩
      · simpa [gs_step, hf] using h1
      · rw [h2]
        simp [okResult, hf, List.filterMap_cons]
      · rw [h3]
        simp [List.length_cons]
        omega
      · rw [h4]
        simp only [okAcc, hf, List.filterMap_cons, List.foldl_cons]
        congr 1
        rcases lt_or_le st.max_acc acc with hlt | hle
        · rw [if_pos hlt, max_eq_right (le_of_lt hlt)]
        · rw [if_neg (not_lt.mpr hle), max_eq_left hle]
    | linalg_error =>
      obtain ⟨st', h1, h2, h3, h4⟩ := ih ⟨st.result_list, st.max_acc,
        st.max_acc_std, st.run + 1⟩ hrest
      refine ⟨st', ?_, ?_, ?_, ?_⟩
      · simpa [gs_step, hf] using h1
      · rw [h2]
        simp [okResult, hf, List.filterMap_cons]
      · rw [h3]
        simp [List.length_cons]
        omega
      · rw [h4]
        simp [okAcc, hf, List.filterMap_cons]
    | other_error => exact absurd hf hp

theorem run_gs_abort {P R : Type} (f : P → EvalRes R) :
    ∀ (space : List P) (st : GSState R),
      (∃ p ∈ space, f p = EvalRes.other_error) →
      List.foldlM (fun s q => gs_step s (f q)) st space = none := by
  intro space
  induction space with
  | nil =>
    intro st h
    simp at h
  | cons p rest ih =>
    intro st h
    rw [List.foldlM_cons]
    cases hf : f p with
    | ok acc acc_std r =>
      have : ∃ q ∈ rest, f q = EvalRes.other_error := by
        obtain ⟨q, hq, hferr⟩ := h
        rcases List.mem_cons.1 hq with rfl | hq2
        · rw [hf] at hferr
          exact absurd hferr (by simp)
        · exact ⟨q, hq2, hferr⟩
      simp only [gs_step, hf, Option.bind_eq_bind, Option.some_bind]
      exact ih _ this
    | linalg_error =>
      have : ∃ q ∈ rest, f q = EvalRes.other_error := by
        obtain ⟨q, hq, hferr⟩ := h
        rcases List.mem_cons.1 hq with rfl | hq2
        · rw [hf] at hferr
          exact absurd hferr (by simp)
        · exact ⟨q, hq2, hferr⟩
      simp only [gs_step, hf, Option.bind_eq_bind, Option.some_bind]
      exact ih _ this
    | other_error =>
      simp [gs_step, hf]

/- ### C5 -/

/-- C5: when no point of the search space raises an exception of a type
other than `LinAlgError`, the sweep completes: the results list is
exactly the mappings of the non-failing points in order (failing points
contribute nothing), the progress counter reaches `1 + |space|` (it also
advances at failing points), and the final best accuracy is the fold of
`max` over the accuracies of the non-failing points starting from the
initial `0` — while if any point raises an exception of another type,
the whole sweep aborts (no final state). -/
theorem c5_run_gs_skip_singular :
    (∀ (P R : Type) (f : P → EvalRes R) (space : List P),
      (∀ p ∈ space, f p ≠ EvalRes.other_error) →
      ∃ st, run_gs f space = some st ∧
        st.result_list = space.filterMap (okResult f) ∧
        st.run = space.length + 1 ∧
        st.max_acc = (space.filterMap (okAcc f)).foldl max 0) ∧
    (∀ (P R : Type) (f : P → EvalRes R) (space : List P) (p : P),
      p ∈ space → f p = EvalRes.other_error → run_gs f space = none) := by
  constructor
  · intro P R f space h
    obtain ⟨st, h1, h2, h3, h4⟩ := run_gs_go f space ⟨[], 0, 0, 1⟩ h
    exact ⟨st, h1, by simpa using h2, by simpa [Nat.add_comm] using h3, h4⟩
  · intro P R f space p hp hf
    exact run_gs_abort f space ⟨[], 0, 0, 1⟩ ⟨p, hp, hf⟩

/-- C5 witness: over the space `[0, 1, 2]` where point `1` raises a
`LinAlgError` and the others return accuracies `0` and `2`, the sweep
yields the results of the two non-failing points, the counter `4`, and
best accuracy `2`; and replacing the failure at `1` by an exception of
another type aborts the sweep. -/
theorem c5_witness :
    (Option.map (fun st => (st.result_list, st.run, st.max_acc))
      (run_gs (fun n : ℕ => if n = 1 then EvalRes.linalg_error
        else EvalRes.ok (n : ℚ) 0 n) [0, 1, 2]) = some ([0, 2], 4, 2)) ∧
    run_gs (fun n : ℕ => if n = 1 then EvalRes.other_error
      else EvalRes.ok (n : ℚ) 0 n) [0, 1, 2] = none := by
  constructor
  · obtain ⟨st, h1, h2, h3, h4⟩ := c5_run_gs_skip_singular.1 ℕ ℕ
      (fun n : ℕ => if n = 1 then EvalRes.linalg_error
        else EvalRes.ok (n : ℚ) 0 n) [0, 1, 2]
      (by intro p hp; fin_cases hp <;> simp)
    rw [h1]
    simp only [Option.map_some, Option.map_some', Prod.mk.injEq]
    rw [h2, h3, h4]
    norm_num [okResult, okAcc, List.filterMap_cons]
  · exact c5_run_gs_skip_singular.2 ℕ ℕ _ [0, 1, 2] 1 (by simp) (by simp)

/- ### Pipeline initializer (`initialize`, C9) -/

/-- The `UserInput` configuration object consumed by `initialize`.  Its
class is defined outside the supplied source slice; the fields here are
the ones `initialize` reads, plus the optional exponent step the spec
lists in the user configuration (modelled from the spec: "the three
hyper-parameter ranges (each a (low, high) pair of exponents) plus an
optional exponent step (default 1)"). -/
structure UserInput where
  clf_type : String
  kernel_type : String
  rect_kernel : ℚ
  class_type : String
  mc_scheme : String
  X_train : List (List ℚ)
  y_train : List Int
  test_method_tuple : String × ℚ
  C1_range : Int × Int
  C2_range : Int × Int
  u_range : Int × Int
  step : Int

/-- Embedding of `initialize(user_input_obj)` from `model_selection.py`
(named `init_pipeline` because `initialize` is reserved in Lean):
build the estimator from the classifier family, wrap it for a multiclass
problem, construct the `Validator`, build the search space with search
type `"full"`, and return the chosen evaluation method together with the
search space.  Note the `search_space` call passes no `step` argument,
so the default `1` is used. -/
def init_pipeline (u : UserInput) :
    Option ValidatorMethod × Option (List ParamPoint) :=
  let clf_base : ClfObj :=
    if u.clf_type = "tsvm" then .tsvm u.kernel_type u.rect_kernel
    else if u.clf_type = "lstsvm" then .lstsvm u.kernel_type u.rect_kernel
    else .none_obj
  let clf_obj : ClfObj :=
    if u.class_type = "multiclass" then
      if u.mc_scheme = "ova" then .ova clf_base
      else if u.mc_scheme = "ovo" then .ovo clf_base
      else clf_base
    else clf_base
  let eval_method : Validator :=
    ⟨u.X_train, u.y_train, u.class_type, u.test_method_tuple, clf_obj⟩
  let search_elem :=
    search_space u.kernel_type "full" u.C1_range u.C2_range u.u_range
  (eval_method.choose_validator, search_elem)

/- ### C9 -/

/-- C9: the pipeline initializer always builds the search space with
exponent step `1` (the `search_space` default), and the `step` value
carried by the user configuration is ignored: replacing it by any other
value leaves the initializer result unchanged. -/
theorem c9_init_pipeline_step_ignored :
    ∀ (u : UserInput) (s : Int),
      (init_pipeline u).2 =
        search_space u.kernel_type "full" u.C1_range u.C2_range u.u_range 1 ∧
      init_pipeline (UserInput.mk u.clf_type u.kernel_type u.rect_kernel
        u.class_type u.mc_scheme u.X_train u.y_train u.test_method_tuple
        u.C1_range u.C2_range u.u_range s) = init_pipeline u := by
  intro u s
  exact ⟨rfl, rfl⟩

/- ### Dataset preprocessing (`preprocess.py`) -/

/-- Model of the label cast `astype(np.int)`: truncation toward zero. -/
def truncInt (q : ℚ) : Int := q.num.tdiv q.den

/-- Model of `splitext(split(file_path)[-1])[0]` on POSIX paths: the
last path component with its final dotted extension removed. -/
def basename (path : String) : String :=
  let base := (path.splitOn "/").getLastD path
  let parts := base.splitOn "."
  if parts.length ≤ 1 then base
  else String.intercalate "." parts.dropLast

/-- A parsed delimited table as handed over by the external tabular
library: a list of rows of numeric cells (text-to-number conversion is
the library's, so cells are modelled as already numeric; column labels
are the cells of the row used as header). -/
structure DataFrame where
  columns : List ℚ
  rows : List (List ℚ)
deriving DecidableEq

/-- Model of `pandas.read_csv(file_path, sep=self.sep)` with its default
header inference: the first row of the raw table always becomes the
column labels, and only the remaining rows become data rows — no
argument of the call disables this. -/
def read_csv (raw : List (List ℚ)) : DataFrame :=
  ⟨raw.headD [], raw.tail⟩

/-- The mean of a feature column (`df.mean()`). -/
def colMean (col : List ℚ) : ℚ := col.sum / col.length

/-- Column `j` of a row-major table. -/
def colAt (rows : List (List ℚ)) (j : ℕ) : List ℚ :=
  rows.filterMap (fun r => r.get? j)

/-- Columnwise standardization `(df - df.mean()) / df.std()`; the
standard deviation is the external statistics library's, taken as a
parameter. -/
def normalizeRows (std : List ℚ → ℚ) (rows : List (List ℚ)) :
    List (List ℚ) :=
  rows.map (fun r => r.mapIdx (fun j x =>
    (x - colMean (colAt rows j)) / std (colAt rows j)))

/-- The state of a `DataReader`: the three constructor fields, and the
four attributes that exist only after `load_data` has run (`none`
before). -/
structure DataReader where
  file_path : String
  sep : String
  header : Bool
  X_train : Option (List (List ℚ))
  y_train : Option (List Int)
  hdr_names : Option (List ℚ)
  filename : Option String
deriving DecidableEq

/-- `DataReader.__init__(file_path, sep, header)`: no data attributes
exist yet. -/
def DataReader.init (file_path sep : String) (hdr : Bool) : DataReader :=
  ⟨file_path, sep, hdr, none, none, none, none⟩

/-- Embedding of `DataReader.load_data(shuffle, normalize)`.  The raw
file content reached through `file_path` is an argument, as are the
random permutation applied when `shuffle` is set (`df.sample(frac=1)`,
unseeded) and the external column standard deviation used when
`normalize` is set.  `pd.read_csv` is called with only the path and the
separator, so the first raw row always becomes the column labels
whatever the `header` flag says; the flag only decides whether the
column labels are kept in `hdr_names`.  The first column is extracted as
integer labels and dropped; the remaining columns, optionally
standardized, become `X_train`. -/
def DataReader.load_data (r : DataReader) (raw : List (List ℚ))
    (perm : List (List ℚ) → List (List ℚ)) (std : List ℚ → ℚ)
    (shuffle normalize : Bool) : DataReader :=
  let df := read_csv raw
  let rows := if shuffle then perm df.rows else df.rows
  let y_train := rows.map (fun row => truncInt (row.headD 0))
  let feat := rows.map List.tail
  let feat := if normalize then normalizeRows std feat else feat
  ⟨r.file_path, r.sep, r.header, some feat, some y_train,
   some (if r.header then df.columns.tail else []),
   some (basename r.file_path)⟩

/-- Embedding of `DataReader.get_data()`: the stored dataset when all
three attributes exist, otherwise the `AttributeError` telling the
caller that no dataset has been loaded. -/
def DataReader.get_data (r : DataReader) :
    Except String (List (List ℚ) × List Int × String) :=
  match r.X_train, r.y_train, r.filename with
  | some X, some y, some fn => .ok (X, y, fn)
  | _, _, _ =>
      .error "The dataset has not been loaded yet!Run load_data() method."

/-- The summary object built by `get_data_info` (`DataInfo` of
`model.py`): sample count, feature count, number of distinct class
labels, the sorted distinct labels (`np.unique`), and the header
names. -/
structure DataInfo where
  no_samples : ℕ
  no_features : ℕ
  no_class : ℕ
  class_labels : List Int
  header_names : List ℚ
deriving DecidableEq

/-- Embedding of `DataReader.get_data_info()`: reads `y_train`,
`X_train` and `hdr_names`; before a load these attributes do not exist
and the access raises an `AttributeError`, modelled as the error
branch. -/
def DataReader.get_data_info (r : DataReader) : Except String DataInfo :=
  match r.y_train, r.X_train, r.hdr_names with
  | some y, some X, some hdr =>
      let unq := y.toFinset.sort (· ≤ ·)
      .ok ⟨X.length, (X.headD []).length, unq.length, unq, hdr⟩
  | _, _, _ => .error "AttributeError"

/- ### C2 -/

/-- C2, failing input for the code: a raw file of three data rows loaded
with the header flag off.  `pd.read_csv` still consumes the first row
`[1, 5]` as column labels, so only two samples remain
(`y = [-1, 1]`, `X = [[6], [7]]`), where the claim (and the dataset
reader's own documentation) expect all three rows to be kept when
`hasHeader` is false. -/
theorem c2_failing_input :
    ((DataReader.init "data/test.csv" "," false).load_data
        [[1, 5], [-1, 6], [1, 7]] id (fun _ => 1) false false).y_train =
      some [-1, 1] ∧
    ((DataReader.init "data/test.csv" "," false).load_data
        [[1, 5], [-1, 6], [1, 7]] id (fun _ => 1) false false).X_train =
      some [[6], [7]] ∧
    ([[1, 5], [-1, 6], [1, 7]] : List (List ℚ)).length = 3 := by
  refine ⟨?_, ?_, rfl⟩ <;> rfl

/- ### C8 -/

/-- C8: before any load, both `get_data` and `get_data_info` fail with
an error surfaced to the caller; after a successful `load_data`,
`get_data` returns exactly the stored feature matrix, label vector and
base filename. -/
theorem c8_outputs_require_load :
    ∀ (fp sep : String) (hdr : Bool),
      (∃ e, (DataReader.init fp sep hdr).get_data = .error e) ∧
      (∃ e, (DataReader.init fp sep hdr).get_data_info = .error e) ∧
      ∀ (raw : List (List ℚ)) (perm : List (List ℚ) → List (List ℚ))
        (std : List ℚ → ℚ) (shuffle normalize : Bool),
        ((DataReader.init fp sep hdr).load_data raw perm std shuffle
            normalize).get_data =
          .ok ((((DataReader.init fp sep hdr).load_data raw perm std shuffle
              normalize).X_train).getD [],
            (((DataReader.init fp sep hdr).load_data raw perm std shuffle
              normalize).y_train).getD [],
            basename fp) := by
  intro fp sep hdr
  refine ⟨⟨_, rfl⟩, ⟨_, rfl⟩, ?_⟩
  intro raw perm std shuffle normalize
  rfl

/- ### GUI shell (`app.py`, C3) -/

/-- Modelled from the spec: the standalone `load_data` operation of the
preprocessing module, which `app.py` imports from `libtsvm.preprocess`
but which is absent from the supplied source slice.
Per the spec's `load(filePath, separator, hasHeader, shuffle,
normalize)`: the first row is consumed as column names only when
`hasHeader` is true, rows are permuted (unseeded, the permutation is a
parameter) before the label column is separated when `shuffle` is true,
the first column is parsed as integer labels, and the remaining feature
columns are standardized when `normalize` is true; the loaded feature
matrix and label vector are handed back.  The file system (content
reached through path and separator) is a parameter. -/
def load_data_fn (fs : String → String → List (List ℚ))
    (perm : List (List ℚ) → List (List ℚ)) (std : List ℚ → ℚ)
    (file_path sep : String) (hdr shuffle normalize : Bool) :
    List (List ℚ) × List Int :=
  let raw := fs file_path sep
  let rows := if hdr then raw.tail else raw
  let rows := if shuffle then perm rows else rows
  let y := rows.map (fun row => truncInt (row.headD 0))
  let feat := rows.map List.tail
  let feat := if normalize then normalizeRows std feat else feat
  (feat, y)

/-- The main window's state as read and written by the load action: the
path display text, the separator text, the three check boxes, and the
two fields assigned by the handler. -/
structure Window where
  path_box : String
  sep_char_box : String
  header_check : Bool
  shuffle_box : Bool
  normalize_box : Bool
  X_train : Option (List (List ℚ))
  y_train : Option (List Int)

/-- Embedding of `LIBTwinSVMApp.load_data` from `app.py`: invoke the
preprocessing `load_data` with the path text, the separator text and the
three check-box states (each passed through the literal
`True ... else False` conditional of the source), and store the returned
feature matrix and label vector on the window. -/
def app_load_data (fs : String → String → List (List ℚ))
    (perm : List (List ℚ) → List (List ℚ)) (std : List ℚ → ℚ)
    (w : Window) : Window :=
  let r := load_data_fn fs perm std w.path_box w.sep_char_box
    (if w.header_check then true else false)
    (if w.shuffle_box then true else false)
    (if w.normalize_box then true else false)
  ⟨w.path_box, w.sep_char_box, w.header_check, w.shuffle_box,
   w.normalize_box, some r.1, some r.2⟩

/- ### C3 -/

/-- C3: the GUI load action invokes the preprocessing load operation
with exactly the five control values of the window (path text, separator
text, and the has-header, shuffle and normalize booleans) and stores the
returned feature matrix and label vector, leaving the controls
unchanged. -/
theorem c3_gui_load_invokes_preprocess :
    ∀ (fs : String → String → List (List ℚ))
      (perm : List (List ℚ) → List (List ℚ)) (std : List ℚ → ℚ)
      (w : Window),
      (app_load_data fs perm std w).X_train =
        some (load_data_fn fs perm std w.path_box w.sep_char_box
          w.header_check w.shuffle_box w.normalize_box).1 ∧
      (app_load_data fs perm std w).y_train =
        some (load_data_fn fs perm std w.path_box w.sep_char_box
          w.header_check w.shuffle_box w.normalize_box).2 ∧
      (app_load_data fs perm std w).path_box = w.path_box ∧
      (app_load_data fs perm std w).sep_char_box = w.sep_char_box ∧
      (app_load_data fs perm std w).header_check = w.header_check ∧
      (app_load_data fs perm std w).shuffle_box = w.shuffle_box ∧
      (app_load_data fs perm std w).normalize_box = w.normalize_box := by
  intro fs perm std w
  obtain ⟨p, s, hc, sc, nc, X, y⟩ := w
  cases hc <;> cases sc <;> cases nc <;>
    exact ⟨rfl, rfl, rfl, rfl, rfl, rfl, rfl⟩

/- ### Cross-validation (`Validator.cv_validator`, C10) -/

/-- Contiguous index blocks of the given sizes, starting at `start`. -/
def blocks (start : ℕ) : List ℕ → List (List ℕ)
  | [] => []
  | s :: rest => (List.range s).map (start + ·) :: blocks (start + s) rest

/-- The fold sizes of the external `KFold(n_splits=K)` over `n` samples:
the first `n % K` folds have one extra element (the library's documented
behaviour for K contiguous folds). -/
def fold_sizes (n K : ℕ) : List ℕ :=
  (List.range K).map (fun i => n / K + if i < n % K then 1 else 0)

/-- The test-index blocks yielded by `KFold(K).split` over `n` samples:
contiguous and in order. -/
def kfold_tests (n K : ℕ) : List (List ℕ) := blocks 0 (fold_sizes n K)

/-- The `(train_index, test_index)` pairs of `KFold(K).split`: each test
block paired with the remaining indices. -/
def kfold_splits (n K : ℕ) : List (List ℕ × List ℕ) :=
  (kfold_tests n K).map
    (fun t => ((List.range n).filter (fun i => decide (i ∉ t)), t))

theorem blocks_length_map (sizes : List ℕ) :
    ∀ start : ℕ, (blocks start sizes).map List.length = sizes := by
  induction sizes with
  | nil => intro start; rfl
  | cons s rest ih =>
    intro start
    simp [blocks, ih]

theorem blocks_mem_lt (sizes : List ℕ) :
    ∀ (start : ℕ) (t : List ℕ), t ∈ blocks start sizes →
      ∀ i ∈ t, i < start + sizes.sum := by
  induction sizes with
  | nil => intro start t ht; simp [blocks] at ht
  | cons s rest ih =>
    intro start t ht i hi
    rw [blocks, List.mem_cons] at ht
    rcases ht with rfl | ht
    · simp only [List.mem_map, List.mem_range] at hi
      obtain ⟨k, hk, rfl⟩ := hi
      simp only [List.sum_cons]
      omega
    · have := ih (start + s) t ht i hi
      simp only [List.sum_cons]
      omega

theorem sum_const_add_ite (a : ℕ) :
    ∀ (K m : ℕ), m ≤ K →
      ((List.range K).map (fun i => a + if i < m then 1 else 0)).sum =
        K * a + m := by
  intro K
  induction K with
  | zero =>
    intro m hm
    interval_cases m
    simp
  | succ k ih =>
    intro m hm
    rw [List.range_succ, List.map_append, List.sum_append]
    simp only [List.map_cons, List.map_nil, List.sum_cons, List.sum_nil]
    rcases Nat.lt_or_ge k m with h | h
    · have hm2 : m = k + 1 := by omega
      subst hm2
      have hrepl : ((List.range k).map (fun i => a + if i < k + 1 then 1 else 0)) =
          (List.range k).map (fun _ => a + 1) := by
        apply List.map_congr_left
        intro x hx
        rw [List.mem_range] at hx
        rw [if_pos (by omega)]
      rw [hrepl, if_pos (by omega)]
      simp [List.map_const', List.sum_replicate, smul_eq_mul]
      ring
    · rw [ih m h, if_neg (by omega)]
      ring

theorem fold_sizes_sum (n K : ℕ) (hK : 0 < K) : (fold_sizes n K).sum = n := by
  unfold fold_sizes
  rw [sum_const_add_ite (n / K) K (n % K) (le_of_lt (Nat.mod_lt n hK))]
  exact Nat.div_add_mod n K

theorem kfold_tests_mem_lt (n K : ℕ) (hK : 0 < K) :
    ∀ t ∈ kfold_tests n K, ∀ i ∈ t, i < n := by
  intro t ht i hi
  have := blocks_mem_lt (fold_sizes n K) 0 t ht i hi
  rwa [fold_sizes_sum n K hK, Nat.zero_add] at this

theorem countP_four (l : List (Int × Int))
    (h : ∀ q ∈ l, (q.1 = 1 ∨ q.1 = -1) ∧ (q.2 = 1 ∨ q.2 = -1)) :
    l.countP (fun q => q.1 = 1 ∧ q.2 = 1) +
    l.countP (fun q => q.1 = -1 ∧ q.2 = -1) +
    l.countP (fun q => q.1 = -1 ∧ q.2 = 1) +
    l.countP (fun q => q.1 = 1 ∧ q.2 = -1) = l.length := by
  induction l with
  | nil => simp
  | cons a rest ih =>
    have ha := h a (List.mem_cons_self a rest)
    have hrest : ∀ q ∈ rest, (q.1 = 1 ∨ q.1 = -1) ∧ (q.2 = 1 ∨ q.2 = -1) :=
      fun q hq => h q (List.mem_cons_of_mem a hq)
    have ihr := ih hrest
    obtain ⟨x, y⟩ := a
    simp only at ha
    simp only [Bool.decide_and] at ihr ⊢
    rcases ha.1 with rfl | rfl <;> rcases ha.2 with rfl | rfl <;>
      simp [List.countP_cons] <;> omega

/-- For parallel `±1` label arrays, the four confusion counts of
`eval_metrics` partition the samples. -/
theorem eval_metrics_counts_sum (yt yp : List Int)
    (hlen : yp.length = yt.length)
    (ht : ∀ l ∈ yt, l = 1 ∨ l = -1) (hp : ∀ o ∈ yp, o = 1 ∨ o = -1) :
    (eval_metrics yt yp).tp + (eval_metrics yt yp).tn +
    (eval_metrics yt yp).fp + (eval_metrics yt yp).fn = yt.length := by
  simp only [eval_metrics]
  have hq : ∀ q ∈ yt.zip yp, (q.1 = 1 ∨ q.1 = -1) ∧ (q.2 = 1 ∨ q.2 = -1) := by
    intro q hmem
    obtain ⟨a, b⟩ := q
    have := List.of_mem_zip hmem
    exact ⟨ht a this.1, hp b this.2⟩
  rw [countP_four (yt.zip yp) hq, List.length_zip, hlen, min_self]

theorem filterMap_get_length {α : Type} (l : List α) (t : List ℕ)
    (h : ∀ i ∈ t, i < l.length) :
    (t.filterMap (fun i => l.get? i)).length = t.length := by
  induction t with
  | nil => rfl
  | cons i rest ih =>
    have hi : i < l.length := h i (List.mem_cons_self i rest)
    have hrest : ∀ j ∈ rest, j < l.length :=
      fun j hj => h j (List.mem_cons_of_mem i hj)
    have hx : l.get? i = some (l.get ⟨i, hi⟩) := List.get?_eq_get hi
    simp only [List.filterMap_cons, hx, List.length_cons, ih hrest]

theorem mem_filterMap_get {α : Type} (l : List α) (t : List ℕ) :
    ∀ x ∈ t.filterMap (fun i => l.get? i), x ∈ l := by
  intro x hx
  rw [List.mem_filterMap] at hx
  obtain ⟨i, _, hget⟩ := hx
  exact List.get?_mem hget

theorem sum_four {α : Type} (l : List α) (f g h k : α → ℕ) :
    (l.map f).sum + (l.map g).sum + (l.map h).sum + (l.map k).sum =
    (l.map (fun x => f x + g x + h x + k x)).sum := by
  induction l with
  | nil => rfl
  | cons a rest ih =>
    simp only [List.map_cons, List.sum_cons]
    omega

/-- The per-fold metric results of the cross-validation loop: for each
`(train_index, test_index)` pair of `KFold(K).split`, extract the four
`np.take` selections, fit and predict through the external estimator,
and evaluate with `eval_metrics`. -/
def cv_fold_metrics (estimator : Estimator) (K : ℕ)
    (X : List (List ℚ)) (y : List Int) (dict_param : ParamPoint) :
    List Metrics :=
  (kfold_splits X.length K).map (fun tt =>
    eval_metrics (tt.2.filterMap (fun i => y.get? i))
      (estimator dict_param
        (tt.1.filterMap (fun i => X.get? i))
        (tt.1.filterMap (fun i => y.get? i))
        (tt.2.filterMap (fun i => X.get? i))))

/-- The mean of a list of scores (`np.mean`). -/
def listMean (l : List ℚ) : ℚ := l.sum / l.length

/-- The metric mapping returned by `cv_validator`: mean and standard
deviation of every per-fold score, the confusion counts summed across
folds, and the tested hyper-parameter point, in the order of the Python
dictionary. -/
structure CVBundle where
  accuracy : ℚ
  acc_std : ℚ
  recall_p : ℚ
  r_p_std : ℚ
  precision_p : ℚ
  p_p_std : ℚ
  f1_p : ℚ
  f1_p_std : ℚ
  recall_n : ℚ
  r_n_std : ℚ
  precision_n : ℚ
  p_n_std : ℚ
  f1_n : ℚ
  f1_n_std : ℚ
  tp : ℕ
  tn : ℕ
  fp : ℕ
  fn : ℕ
  params : ParamPoint
deriving DecidableEq

/-- Embedding of `Validator.cv_validator(dict_param)`: configure the
estimator, split the data into the K contiguous folds of the external
`KFold`, accumulate the per-fold scores and the running sums of the
confusion counts, and return the mean accuracy, its standard deviation
(the external `np.std`, a parameter), and the full mapping merged with
the point. -/
def cv_validator (std : List ℚ → ℚ) (estimator : Estimator) (K : ℕ)
    (X : List (List ℚ)) (y : List Int) (dict_param : ParamPoint) :
    ℚ × ℚ × CVBundle :=
  let ms := cv_fold_metrics estimator K X y dict_param
  let accs := ms.map Metrics.accuracy
  let rps := ms.map Metrics.recall_p
  let pps := ms.map Metrics.precision_p
  let f1ps := ms.map Metrics.f1_p
  let rns := ms.map Metrics.recall_n
  let pns := ms.map Metrics.precision_n
  let f1ns := ms.map Metrics.f1_n
  (listMean accs, std accs,
   ⟨listMean accs, std accs, listMean rps, std rps, listMean pps, std pps,
    listMean f1ps, std f1ps, listMean rns, std rns, listMean pns, std pns,
    listMean f1ns, std f1ns,
    (ms.map Metrics.tp).sum, (ms.map Metrics.tn).sum,
    (ms.map Metrics.fp).sum, (ms.map Metrics.fn).sum, dict_param⟩)

/- ### C10 -/

/-- C10: for a dataset with `±1` labels, an estimator meeting the
contract (predictions parallel to its test input and in `±1`), and any
fold count `K ≥ 2`, the summed confusion counts of the mapping returned
by `cv_validator` add up to the total sample count: the K folds
partition the samples and each sample lands in exactly one confusion
bucket of its fold. -/
theorem c10_cv_validator_counts_partition
    (std : List ℚ → ℚ) (estimator : Estimator) (K : ℕ)
    (X : List (List ℚ)) (y : List Int) (p : ParamPoint)
    (hK : 2 ≤ K) (hy : y.length = X.length)
    (hlab : ∀ l ∈ y, l = 1 ∨ l = -1)
    (helen : ∀ (q : ParamPoint) (Xtr : List (List ℚ)) (ytr : List Int)
      (Xte : List (List ℚ)), (estimator q Xtr ytr Xte).length = Xte.length)
    (hepm : ∀ (q : ParamPoint) (Xtr : List (List ℚ)) (ytr : List Int)
      (Xte : List (List ℚ)), ∀ o ∈ estimator q Xtr ytr Xte, o = 1 ∨ o = -1) :
    (cv_validator std estimator K X y p).2.2.tp +
    (cv_validator std estimator K X y p).2.2.tn +
    (cv_validator std estimator K X y p).2.2.fp +
    (cv_validator std estimator K X y p).2.2.fn = X.length := by
  have h0K : 0 < K := by omega
  simp only [cv_validator]
  rw [sum_four]
  have hcong : (cv_fold_metrics estimator K X y p).map
      (fun m => m.tp + m.tn + m.fp + m.fn) =
      (kfold_splits X.length K).map (fun tt => tt.2.length) := by
    unfold cv_fold_metrics
    rw [List.map_map]
    apply List.map_congr_left
    intro tt htt
    have htest : tt.2 ∈ kfold_tests X.length K := by
      unfold kfold_splits at htt
      rw [List.mem_map] at htt
      obtain ⟨t, htmem, rfl⟩ := htt
      exact htmem
    have hidx : ∀ i ∈ tt.2, i < X.length :=
      kfold_tests_mem_lt X.length K h0K tt.2 htest
    have hidxy : ∀ i ∈ tt.2, i < y.length := by
      rw [hy]; exact hidx
    have hyte : (tt.2.filterMap (fun i => y.get? i)).length = tt.2.length :=
      filterMap_get_length y tt.2 hidxy
    have hXte : (tt.2.filterMap (fun i => X.get? i)).length = tt.2.length :=
      filterMap_get_length X tt.2 hidx
    simp only [Function.comp]
    rw [eval_metrics_counts_sum]
    · exact hyte
    · rw [helen, hXte, hyte]
    · intro l hl
      exact hlab l (mem_filterMap_get y tt.2 l hl)
    · intro o ho
      exact hepm p _ _ _ o ho
  rw [hcong]
  unfold kfold_splits
  rw [List.map_map]
  have : ((fun (tt : List ℕ × List ℕ) => tt.2.length) ∘
      (fun t => ((List.range X.length).filter (fun i => decide (i ∉ t)), t))) =
      List.length := rfl
  rw [this]
  have hlen := blocks_length_map (fold_sizes X.length K) 0
  unfold kfold_tests
  rw [hlen, fold_sizes_sum X.length K h0K]

/-- C10 witness: the theorem applied to a three-sample dataset with
labels `[1, -1, 1]`, two folds, and an estimator predicting `1`
everywhere: the summed confusion counts add up to `3`. -/
theorem c10_witness :
    (cv_validator (fun _ => 0) (fun _ _ _ Xte => Xte.map (fun _ => 1)) 2
        [[1], [2], [3]] [1, -1, 1] ⟨1, 1, 1⟩).2.2.tp +
    (cv_validator (fun _ => 0) (fun _ _ _ Xte => Xte.map (fun _ => 1)) 2
        [[1], [2], [3]] [1, -1, 1] ⟨1, 1, 1⟩).2.2.tn +
    (cv_validator (fun _ => 0) (fun _ _ _ Xte => Xte.map (fun _ => 1)) 2
        [[1], [2], [3]] [1, -1, 1] ⟨1, 1, 1⟩).2.2.fp +
    (cv_validator (fun _ => 0) (fun _ _ _ Xte => Xte.map (fun _ => 1)) 2
        [[1], [2], [3]] [1, -1, 1] ⟨1, 1, 1⟩).2.2.fn = 3 := by
  exact c10_cv_validator_counts_partition (fun _ => 0)
    (fun _ _ _ Xte => Xte.map (fun _ => 1)) 2 [[1], [2], [3]] [1, -1, 1]
    ⟨1, 1, 1⟩ (by norm_num) (by norm_num)
    (by intro l hl; fin_cases hl <;> simp)
    (by intro q Xtr ytr Xte; simp)
    (by intro q Xtr ytr Xte o ho; simp at ho; omega)

end LIBTwinSVM
